import Mathlib

/-
  Verification development for the knowledge-graph memory server
  (KnowledgeGraphManager): data model, persistent store, mutation API,
  search, and the duplicate-detection similarity engine.

  The embedding mirrors the TypeScript source:
  - JS arrays become `List`, JS objects with known shape become structures,
    dynamic JSON records become association lists (`JObj`).
  - JS numbers in the similarity engine are modelled as exact IEEE binary64
    values: a nonnegative double is a fixed-point natural (`FP`,
    value times 2 ^ 200) and every operation — including `Math.sqrt` and the
    decimal literals 0.7 / 0.3 / 0.9 — applies round-to-nearest, ties-to-even
    to the exact result; JS string code units are idealized as `Char` lists.
  - Fallible operations (`addObservations`, `batchCreate`) return `Except`,
    modelling a thrown exception; the backing file write happens only after
    the in-memory pass completes, exactly as in the source, so an error
    leaves the stored file untouched.
  - The FlexSearch index is external library code; its lookup behaviour is
    modelled from the spec (token/substring-style matching over the indexed
    strings, results in insertion order), while the index *contents*, the id
    encoding `"<entityIndex>-<obsIndex>"`, the `limit: 100` arguments and the
    id parsing are taken from the source.
-/

namespace Memory

/-- Entity record: `{ name, entityType, observations }`. -/
structure Entity where
  name : String
  entityType : String
  observations : List String
deriving DecidableEq, Repr

/-- Relation record: `{ from, to, relationType }` (directed edge). -/
structure Relation where
  «from» : String
  «to» : String
  relationType : String
deriving DecidableEq, Repr

/-- In-memory knowledge graph: `{ entities, relations }`. -/
structure KnowledgeGraph where
  entities : List Entity
  relations : List Relation
deriving DecidableEq, Repr

/-- Names of the entities of a graph, in order. -/
def entityNames (g : KnowledgeGraph) : List String :=
  g.entities.map (·.name)

/-- The uniqueness invariant of the spec: entity names are pairwise distinct. -/
def NamesNodup (g : KnowledgeGraph) : Prop :=
  (entityNames g).Nodup

instance (g : KnowledgeGraph) : Decidable (NamesNodup g) :=
  inferInstanceAs (Decidable (List.Nodup _))

/- ### Persistent store, record level

One stored line per record, tagged with a discriminator.  `saveGraph`
writes all entities first, then all relations (source `saveGraph`);
`loadGraph` folds over the lines appending each record to its group
(source `loadGraph`'s `reduce`). -/

/-- A stored line of the backing file, at the typed level. -/
inductive StoredRec where
  | ent (e : Entity)
  | rel (r : Relation)
deriving DecidableEq, Repr

/-- The backing file contents: the list of stored records, in file order. -/
abbrev StoredFile := List StoredRec

/-- Serialization: every entity record, then every relation record. -/
def saveGraph (g : KnowledgeGraph) : StoredFile :=
  g.entities.map StoredRec.ent ++ g.relations.map StoredRec.rel

/-- One step of `loadGraph`'s reduce: push the record to its group. -/
def loadStep (g : KnowledgeGraph) (r : StoredRec) : KnowledgeGraph :=
  match r with
  | .ent e => { g with entities := g.entities ++ [e] }
  | .rel r => { g with relations := g.relations ++ [r] }

/-- Deserialization: fold over the lines in file order. -/
def loadGraph (f : StoredFile) : KnowledgeGraph :=
  f.foldl loadStep ⟨[], []⟩

/-- The entity records of a file, in file order. -/
def fileEntities (f : StoredFile) : List Entity :=
  f.filterMap (fun r => match r with | .ent e => some e | .rel _ => none)

/-- The relation records of a file, in file order. -/
def fileRelations (f : StoredFile) : List Relation :=
  f.filterMap (fun r => match r with | .ent _ => none | .rel r => some r)

/- ### Mutation operations (in-memory part)

Each public operation loads the graph, mutates it in memory and saves;
the in-memory parts below are the direct transcription of the class
methods. -/

/-- `createEntities`: drop entities whose name already occurs in the stored
graph (the filter runs against the graph as loaded, not against the request
itself), append the rest, return the inserted subset. -/
def createEntities (entities : List Entity) (g : KnowledgeGraph) :
    KnowledgeGraph × List Entity :=
  let newEntities :=
    entities.filter (fun e => !(g.entities.any (fun ex => ex.name == e.name)))
  ({ g with entities := g.entities ++ newEntities }, newEntities)

/-- Exact triple equality test used by the relation filters. -/
def relTripleEq (a b : Relation) : Bool :=
  a.«from» == b.«from» && a.«to» == b.«to» && a.relationType == b.relationType

/-- `createRelations`: drop relations whose exact triple already exists,
append the rest, return the inserted subset. -/
def createRelations (relations : List Relation) (g : KnowledgeGraph) :
    KnowledgeGraph × List Relation :=
  let newRelations :=
    relations.filter (fun r => !(g.relations.any (fun x => relTripleEq x r)))
  ({ g with relations := g.relations ++ newRelations }, newRelations)

/-- One request element of `addObservations`. -/
structure ObservationAdd where
  entityName : String
  contents : List String
deriving DecidableEq, Repr

/-- One result element of `addObservations`. -/
structure ObservationResult where
  entityName : String
  addedObservations : List String
deriving DecidableEq, Repr

/-- Replace the first entity satisfying `p` by its image under `f`
(models mutating the object returned by `Array.prototype.find`). -/
def updateFirstEntity (p : Entity → Bool) (f : Entity → Entity) :
    List Entity → List Entity
  | [] => []
  | e :: rest => if p e then f e :: rest else e :: updateFirstEntity p f rest

/-- The error message thrown for a missing entity. -/
def missingEntityMsg (name : String) : String :=
  "Entity with name " ++ name ++ " not found"

/-- The in-memory pass of `addObservations` (the `observations.map` body):
process requests in order; find the first entity with the requested name,
aborting with the thrown error when there is none; append only the contents
not already present; collect the per-request results. -/
def addObservationsGo (g : KnowledgeGraph) :
    List ObservationAdd → Except String (KnowledgeGraph × List ObservationResult)
  | [] => .ok (g, [])
  | o :: rest =>
    match g.entities.find? (fun e => e.name == o.entityName) with
    | none => .error (missingEntityMsg o.entityName)
    | some e =>
      let newObservations := o.contents.filter (fun c => !(e.observations.contains c))
      let g1 : KnowledgeGraph :=
        { g with entities :=
            (updateFirstEntity (fun e2 => e2.name == o.entityName)
              (fun e2 => { e2 with observations := e2.observations ++ newObservations })
              g.entities) }
      match addObservationsGo g1 rest with
      | .error msg => .error msg
      | .ok (g2, rs) => .ok (g2, ⟨o.entityName, newObservations⟩ :: rs)

/-- `addObservations`, in-memory part. -/
def addObservations (observations : List ObservationAdd) (g : KnowledgeGraph) :
    Except String (KnowledgeGraph × List ObservationResult) :=
  addObservationsGo g observations

/-- `deleteEntities`: remove named entities and every relation touching one
of the names. -/
def deleteEntities (entityNames : List String) (g : KnowledgeGraph) :
    KnowledgeGraph :=
  { entities := g.entities.filter (fun e => !(entityNames.contains e.name)),
    relations := g.relations.filter
      (fun r => !(entityNames.contains r.«from») && !(entityNames.contains r.«to»)) }

/-- One request element of `deleteObservations`. -/
structure ObservationDelete where
  entityName : String
  observations : List String
deriving DecidableEq, Repr

/-- `deleteObservations`: for each deletion, if the named entity exists,
filter the listed observation strings out of it; silently no-op otherwise. -/
def deleteObservations (deletions : List ObservationDelete) (g : KnowledgeGraph) :
    KnowledgeGraph :=
  deletions.foldl
    (fun g d =>
      { g with entities :=
          (updateFirstEntity (fun e => e.name == d.entityName)
            (fun e => { e with observations :=
                e.observations.filter (fun o => !(d.observations.contains o)) })
            g.entities) })
    g

/-- `deleteRelations`: remove every relation matching one of the given
triples. -/
def deleteRelations (relations : List Relation) (g : KnowledgeGraph) :
    KnowledgeGraph :=
  { g with relations :=
      g.relations.filter (fun r => !(relations.any (fun d => relTripleEq r d))) }

/-- Input of `batchCreate`; a JS-absent array behaves like an empty one
(both skip the corresponding `length > 0` guard). -/
structure BatchData where
  entities : List Entity
  relations : List Relation
  observations : List ObservationAdd
deriving DecidableEq, Repr

/-- Output of `batchCreate`. -/
structure BatchResult where
  createdEntities : List Entity
  createdRelations : List Relation
  addedObservations : List ObservationResult
deriving DecidableEq, Repr

/-- `batchCreate`: entity creation, then relation creation, then observation
addition, against one loaded graph; a missing entity in the observation part
throws before the single save. -/
def batchCreate (data : BatchData) (g : KnowledgeGraph) :
    Except String (KnowledgeGraph × BatchResult) :=
  let step1 :=
    if data.entities.length > 0 then createEntities data.entities g else (g, [])
  let step2 :=
    if data.relations.length > 0 then createRelations data.relations step1.1
    else (step1.1, [])
  if data.observations.length > 0 then
    match addObservationsGo step2.1 data.observations with
    | .error msg => .error msg
    | .ok (g3, rs) => .ok (g3, ⟨step1.2, step2.2, rs⟩)
  else
    .ok (step2.1, ⟨step1.2, step2.2, []⟩)

/- ### File-level runners: load, mutate, save. -/

/-- Run `createEntities` against the stored file. -/
def runCreateEntities (f : StoredFile) (entities : List Entity) :
    StoredFile × List Entity :=
  let r := createEntities entities (loadGraph f)
  (saveGraph r.1, r.2)

/-- Run `addObservations` against the stored file.  On error the file is
returned unchanged: the source throws inside the `map`, before
`saveGraph` is reached, so no write happens. -/
def runAddObservations (f : StoredFile) (observations : List ObservationAdd) :
    Except String (List ObservationResult) × StoredFile :=
  match addObservations observations (loadGraph f) with
  | .error msg => (.error msg, f)
  | .ok (g1, rs) => (.ok rs, saveGraph g1)

/-- Run `deleteEntities` against the stored file. -/
def runDeleteEntities (f : StoredFile) (entityNames : List String) : StoredFile :=
  saveGraph (deleteEntities entityNames (loadGraph f))

/- ### The mutation alphabet, for invariant statements. -/

/-- One request to any of the seven mutating operations. -/
inductive Mutation where
  | createE (entities : List Entity)
  | createR (relations : List Relation)
  | addObs (observations : List ObservationAdd)
  | delE (entityNames : List String)
  | delObs (deletions : List ObservationDelete)
  | delR (relations : List Relation)
  | batch (data : BatchData)
deriving Repr

/-- Apply a mutation to a loaded graph; `none` models a thrown error
(no save happens in that case). -/
def mutate : Mutation → KnowledgeGraph → Option KnowledgeGraph
  | .createE es, g => some (createEntities es g).1
  | .createR rs, g => some (createRelations rs g).1
  | .addObs os, g =>
    match addObservations os g with
    | .error _ => none
    | .ok (g1, _) => some g1
  | .delE ns, g => some (deleteEntities ns g)
  | .delObs ds, g => some (deleteObservations ds g)
  | .delR rs, g => some (deleteRelations rs g)
  | .batch b, g =>
    match batchCreate b g with
    | .error _ => none
    | .ok (g1, _) => some g1

/-- The entity names a mutation request asks to create. -/
def requestEntityNames : Mutation → List String
  | .createE es => es.map (·.name)
  | .batch b => b.entities.map (·.name)
  | _ => []

/- ### Persistent store, dynamic (JSON object) level

`JSON.stringify`/`JSON.parse` are modelled as the identity on records: a
stored line is the association list of the serialized object's fields, in
property order.  This is the level at which the `type` discriminator
survives the cast in `loadGraph` (`graph.entities.push(item as Entity)`). -/

/-- A JSON value as used by the stored records. -/
inductive JVal where
  | s (v : String)
  | strs (vs : List String)
deriving DecidableEq, Repr

/-- A parsed JSON line: field name/value pairs in property order. -/
abbrev JObj := List (String × JVal)

/-- The serialized form of a fresh entity: `JSON.stringify({ type: "entity", ...e })`. -/
def entityToObj (e : Entity) : JObj :=
  [("type", .s "entity"), ("name", .s e.name), ("entityType", .s e.entityType),
   ("observations", .strs e.observations)]

/-- The serialized form of a fresh relation: `JSON.stringify({ type: "relation", ...r })`. -/
def relationToObj (r : Relation) : JObj :=
  [("type", .s "relation"), ("from", .s r.«from»), ("to", .s r.«to»),
   ("relationType", .s r.relationType)]

/-- Whether a parsed line has discriminator `type === tag`. -/
def hasTypeTag (tag : String) (o : JObj) : Prop :=
  List.lookup "type" o = some (.s tag)

instance (tag : String) (o : JObj) : Decidable (hasTypeTag tag o) :=
  inferInstanceAs (Decidable (_ = _))

/-- Spread with a leading literal, `{ type: tag, ...o }`: the `type` key sits
first; if `o` itself carries a `type` field its value wins (assignment during
spread overwrites the value but keeps the first position). -/
def tagObj (tag : String) (o : JObj) : JObj :=
  ("type", (List.lookup "type" o).getD (.s tag)) :: o.filter (fun p => p.1 ≠ "type")

/-- `saveGraph` at the object level: tag and write every in-memory entity
record, then every in-memory relation record. -/
def saveObjs (ents rels : List JObj) : List JObj :=
  ents.map (tagObj "entity") ++ rels.map (tagObj "relation")

/-- One step of `loadGraph`'s reduce at the object level: the source tests
the discriminator with two independent `if`s and pushes the *whole* parsed
object, discriminator included. -/
def loadObjStep (acc : List JObj × List JObj) (o : JObj) : List JObj × List JObj :=
  let acc1 := if hasTypeTag "entity" o then (acc.1 ++ [o], acc.2) else acc
  if hasTypeTag "relation" o then (acc1.1, acc1.2 ++ [o]) else acc1

/-- `loadGraph` at the object level: fold over the non-empty lines in file
order; the result is what `readGraph` returns to the caller. -/
def loadObjs (lines : List JObj) : List JObj × List JObj :=
  lines.foldl loadObjStep ([], [])

/-- The object-level file written for a typed graph (first `save(G)`). -/
def saveGraphObjs (g : KnowledgeGraph) : List JObj :=
  g.entities.map entityToObj ++ g.relations.map relationToObj

/- ### Search

The FlexSearch behaviour (external library) is modelled from the spec:
an index is the list of `(id, text)` pairs in insertion order, and a
query matches an indexed text when the query occurs inside it
(substring-style lookup); `search` returns the ids of the matching
entries, truncated to the `limit` argument the source passes (100). -/

/-- Substring test on character lists (`needle` occurs contiguously). -/
def containsSub (needle : List Char) : List Char → Bool
  | [] => needle.isPrefixOf []
  | c :: t => needle.isPrefixOf (c :: t) || containsSub needle t

/-- Query `q` matches indexed text `t`. -/
def matchesQuery (q t : String) : Bool :=
  containsSub q.data t.data

/-- Characters of `String.prototype.trim` (whitespace stripped both ends). -/
def trimChars (cs : List Char) : List Char :=
  ((cs.dropWhile Char.isWhitespace).reverse.dropWhile Char.isWhitespace).reverse

/-- `query.trim()`. -/
def strTrim (s : String) : String :=
  ⟨trimChars s.data⟩

/-- The character of a decimal digit. -/
def digitChar (d : ℕ) : Char :=
  Char.ofNat (48 + d)

/-- Decimal digits of a number, most significant first (fuel-driven so that
it reduces in the kernel; the fuel `n + 1` always suffices). -/
def natToCharsAux : ℕ → ℕ → List Char
  | 0, _ => []
  | fuel + 1, n =>
    if n < 10 then [digitChar n]
    else natToCharsAux fuel (n / 10) ++ [digitChar (n % 10)]

/-- Decimal representation of a number (the template-literal `${n}`). -/
def natToChars (n : ℕ) : List Char :=
  natToCharsAux (n + 1) n

/-- The observation-index id `` `${entityIndex}-${obsIndex}` ``. -/
def obsId (entityIndex obsIndex : ℕ) : String :=
  ⟨natToChars entityIndex ++ '-' :: natToChars obsIndex⟩

/-- Value of a list of decimal digit characters. -/
def digitsVal (cs : List Char) : ℕ :=
  cs.foldl (fun a c => a * 10 + (c.toNat - 48)) 0

/-- `parseInt` restricted to base 10 naturals: value of the leading digit
run, `none` (NaN) when there is none. -/
def parseIntNat (s : String) : Option ℕ :=
  let ds := s.data.takeWhile Char.isDigit
  if ds.isEmpty then none else some (digitsVal ds)

/-- `parseInt(id.split('-')[0])`: everything before the first `-`, parsed. -/
def parseEntityIndexOfId (id : String) : Option ℕ :=
  parseIntNat ⟨id.data.takeWhile (fun c => c ≠ '-')⟩

/-- Pair every element with its position, from `n` up (the callback index of
`forEach`). -/
def enumFrom {α : Type} (n : ℕ) : List α → List (ℕ × α)
  | [] => []
  | a :: t => (n, a) :: enumFrom (n + 1) t

/-- The text indexed for an entity: `` `${entity.name} ${entity.entityType}` ``. -/
def entitySearchText (e : Entity) : String :=
  e.name ++ " " ++ e.entityType

/-- The entity-identity index built by `rebuildIndexes`: id = entity position. -/
def entityIndexEntries (g : KnowledgeGraph) : List (ℕ × String) :=
  (enumFrom 0 g.entities).map (fun p => (p.1, entitySearchText p.2))

/-- The observation index built by `rebuildIndexes`:
id = `` `${entityIndex}-${obsIndex}` ``, text = the observation string. -/
def obsIndexEntries (g : KnowledgeGraph) : List (String × String) :=
  (enumFrom 0 g.entities).flatMap
    (fun p => (enumFrom 0 p.2.observations).map (fun q => (obsId p.1 q.1, q.2)))

/-- Index lookup: ids of the entries whose text matches the query, in index
insertion order, truncated to `limit` (spec-modelled FlexSearch `search`). -/
def indexSearch {α : Type} (entries : List (α × String)) (query : String)
    (limit : ℕ) : List α :=
  ((entries.filter (fun p => matchesQuery query p.2)).map (·.1)).take limit

/-- The union (as a membership list) of the matched entity positions: the
entity-index hits, then the entity positions parsed out of the
observation-index hit ids (`parseInt` failures, `isNaN`, are skipped). -/
def allMatchedIndexes (g : KnowledgeGraph) (query : String) : List ℕ :=
  indexSearch (entityIndexEntries g) query 100 ++
    (indexSearch (obsIndexEntries g) query 100).filterMap parseEntityIndexOfId

/-- `filteredEntities`: the entities whose position is a matched index. -/
def filteredEntities (g : KnowledgeGraph) (query : String) : List Entity :=
  ((enumFrom 0 g.entities).filter
    (fun p => (allMatchedIndexes g query).contains p.1)).map (·.2)

/-- `searchNodes`: empty-after-trim queries short-circuit to the empty
result; otherwise search both indexes with `limit: 100`, parse the
observation ids back to entity positions, union the matched positions, and
project the induced subgraph (relations kept only when both endpoints
are names of matched entities). -/
def searchNodes (g : KnowledgeGraph) (query : String) : KnowledgeGraph :=
  if (strTrim query).data.isEmpty then ⟨[], []⟩
  else
    ⟨filteredEntities g query,
     g.relations.filter
       (fun r => ((filteredEntities g query).map (·.name)).contains r.«from» &&
         ((filteredEntities g query).map (·.name)).contains r.«to»)⟩

/-- An entity matches a query when its identity text or one of its
observations does (the unlimited notion of "matching" used to state the
result-bound claim). -/
def entityMatchesQuery (q : String) (e : Entity) : Bool :=
  matchesQuery q (entitySearchText e) || e.observations.any (fun o => matchesQuery q o)

/- ### Similarity engine (`findDuplicates` helpers)

JS numbers are IEEE binary64 doubles, and `findDuplicates` scores are
sensitive to their rounding (the self-cosine of a two-word term-frequency
vector is 0.9999999999999998, not 1), so the arithmetic is modelled
exactly: a nonnegative double is represented in fixed point as
`value * 2 ^ 200 : ℕ` (`FP`), which is exact for every binary64 value of
magnitude at least `2 ^ (-148)` — far below anything the similarity code
produces — and each JS operation applies IEEE round-to-nearest, ties-to-even
(`roundB64Frac`) to the exact rational result, as binary64 `+ - * /` and
`Math.sqrt` do.  All arithmetic stays in `ℕ` so that concrete runs reduce in
the kernel. -/

theorem foldl_loadStep (f : StoredFile) (g : KnowledgeGraph) :
    f.foldl loadStep g = ⟨g.entities ++ fileEntities f, g.relations ++ fileRelations f⟩ := by
  induction f generalizing g with
  | nil => simp [fileEntities, fileRelations]
  | cons r t ih =>
    cases r with
    | ent e =>
      rw [List.foldl_cons, ih]
      simp [loadStep, fileEntities, fileRelations]
    | rel r =>
      rw [List.foldl_cons, ih]
      simp [loadStep, fileEntities, fileRelations]

theorem loadGraph_eq (f : StoredFile) :
    loadGraph f = ⟨fileEntities f, fileRelations f⟩ := by
  rw [loadGraph, foldl_loadStep]
  simp

theorem fileEntities_map_ent (es : List Entity) :
    fileEntities (es.map StoredRec.ent) = es := by
  induction es with
  | nil => rfl
  | cons e t ih => simpa [fileEntities] using ih

theorem fileEntities_map_rel (rs : List Relation) :
    fileEntities (rs.map StoredRec.rel) = [] := by
  induction rs with
  | nil => rfl
  | cons r t ih => simp [fileEntities, ih]

theorem fileRelations_map_ent (es : List Entity) :
    fileRelations (es.map StoredRec.ent) = [] := by
  induction es with
  | nil => rfl
  | cons e t ih => simp [fileRelations, ih]

theorem fileRelations_map_rel (rs : List Relation) :
    fileRelations (rs.map StoredRec.rel) = rs := by
  induction rs with
  | nil => rfl
  | cons r t ih => simpa [fileRelations] using ih

theorem fileEntities_saveGraph (g : KnowledgeGraph) :
    fileEntities (saveGraph g) = g.entities := by
  rw [saveGraph, fileEntities, List.filterMap_append]
  rw [show List.filterMap _ (g.entities.map StoredRec.ent) = fileEntities (g.entities.map StoredRec.ent) from rfl]
  rw [show List.filterMap _ (g.relations.map StoredRec.rel) = fileEntities (g.relations.map StoredRec.rel) from rfl]
  rw [fileEntities_map_ent, fileEntities_map_rel, List.append_nil]

theorem fileRelations_saveGraph (g : KnowledgeGraph) :
    fileRelations (saveGraph g) = g.relations := by
  rw [saveGraph, fileRelations, List.filterMap_append]
  rw [show List.filterMap _ (g.entities.map StoredRec.ent) = fileRelations (g.entities.map StoredRec.ent) from rfl]
  rw [show List.filterMap _ (g.relations.map StoredRec.rel) = fileRelations (g.relations.map StoredRec.rel) from rfl]
  rw [fileRelations_map_ent, fileRelations_map_rel, List.nil_append]

theorem loadGraph_saveGraph (g : KnowledgeGraph) : loadGraph (saveGraph g) = g := by
  rw [loadGraph_eq, fileEntities_saveGraph, fileRelations_saveGraph]

/- ### Claim C6 -/

/-- Claim C6 — idempotence of entity creation: running `createEntities`
twice in sequence with the same list against the stored file inserts each
element of the list at most once (the inserted records of the first run form
a sublist of the request), the second run returns an empty inserted list,
and the second run leaves the stored file exactly as the first run wrote it. -/
theorem createEntities_idempotent (f : StoredFile) (es : List Entity) :
    (runCreateEntities (runCreateEntities f es).1 es).2 = [] ∧
      (runCreateEntities (runCreateEntities f es).1 es).1 = (runCreateEntities f es).1 ∧
      (runCreateEntities f es).2.Sublist es := by
  refine ⟨?_, ?_, ?_⟩
  · rw [runCreateEntities, runCreateEntities, createEntities]
    simp only [loadGraph_saveGraph]
    rw [createEntities]
    simp only [List.filter_eq_nil_iff]
    intro e he
    simp only [Bool.not_eq_true', Bool.not_eq_false, List.any_eq_true]
    by_cases hnew : (loadGraph f).entities.any (fun ex => ex.name == e.name)
    · rcases List.any_eq_true.1 hnew with ⟨ex, hex, hb⟩
      exact ⟨ex, List.mem_append_left _ hex, hb⟩
    · refine ⟨e, List.mem_append_right _ ?_, by simp⟩
      exact List.mem_filter.2 ⟨he, by simpa using hnew⟩
  · rw [runCreateEntities, runCreateEntities, createEntities]
    simp only [loadGraph_saveGraph]
    rw [createEntities]
    simp only []
    have hnil : es.filter (fun e =>
        !((createEntities es (loadGraph f)).1.entities.any (fun ex => ex.name == e.name))) = [] := by
      simp only [List.filter_eq_nil_iff]
      intro e he
      simp only [Bool.not_eq_true', Bool.not_eq_false, List.any_eq_true]
      rw [createEntities]
      by_cases hnew : (loadGraph f).entities.any (fun ex => ex.name == e.name)
      · rcases List.any_eq_true.1 hnew with ⟨ex, hex, hb⟩
        exact ⟨ex, List.mem_append_left _ hex, hb⟩
      · refine ⟨e, List.mem_append_right _ ?_, by simp⟩
        exact List.mem_filter.2 ⟨he, by simpa using hnew⟩
    rw [createEntities] at hnil
    simp only [] at hnil
    rw [hnil]
    simp
  · exact (List.filter_sublist es)

/- ### Claim C7 -/

/-- Claim C7 — cascade deletion: after `deleteEntities` runs against the
stored file, no relation remaining in the stored graph has its `from` or
`to` field equal to any deleted name. -/
theorem deleteEntities_cascade (f : StoredFile) (ns : List String) (r : Relation)
    (hr : r ∈ (loadGraph (runDeleteEntities f ns)).relations) :
    r.«from» ∉ ns ∧ r.«to» ∉ ns := by
  rw [runDeleteEntities, loadGraph_saveGraph, deleteEntities] at hr
  have h := (List.mem_filter.1 hr).2
  simp only [Bool.and_eq_true, Bool.not_eq_true'] at h
  exact ⟨by simpa using h.1, by simpa using h.2⟩

/-- Witness for claim C7 at a concrete input. -/
theorem deleteEntities_cascade_witness :
    ("a" ∉ ["c"] ∧ "b" ∉ ["c"]) :=
  deleteEntities_cascade [.rel ⟨"a", "b", "r"⟩] ["c"] ⟨"a", "b", "r"⟩ (by decide)

/- ### Claim C8 -/

/-- Claim C8 — empty queries: `searchNodes` applied to a query that trims
to the empty string returns the empty result, never the whole graph. -/
theorem searchNodes_empty_query (g : KnowledgeGraph) (q : String)
    (h : strTrim q = "") : searchNodes g q = ⟨[], []⟩ := by
  rw [searchNodes, if_pos]
  rw [h]
  rfl

/-- Witness for claim C8 at a concrete input: a whitespace-only query on a
non-empty graph. -/
theorem searchNodes_empty_query_witness :
    searchNodes ⟨[⟨"Alice", "person", ["likes tea"]⟩], []⟩ "  " = ⟨[], []⟩ :=
  searchNodes_empty_query _ _ (by decide)

/- ### Support lemmas: entity names under mutation -/

theorem updateFirstEntity_map_name (p : Entity → Bool) (f : Entity → Entity)
    (hf : ∀ e, (f e).name = e.name) (l : List Entity) :
    (updateFirstEntity p f l).map (·.name) = l.map (·.name) := by
  induction l with
  | nil => rfl
  | cons e t ih =>
    rw [updateFirstEntity]
    by_cases hp : p e
    · simp [hp, hf]
    · simp [hp, ih]

theorem find_name_none (g : KnowledgeGraph) (n : String) :
    g.entities.find? (fun e => e.name == n) = none ↔ n ∉ entityNames g := by
  rw [List.find?_eq_none]
  constructor
  · intro h hmem
    rcases List.mem_map.1 hmem with ⟨e, he, hname⟩
    exact h e he (by simp [hname])
  · intro h e he
    simp only [beq_iff_eq]
    intro hname
    exact h (List.mem_map.2 ⟨e, he, hname⟩)

theorem find_name_isSome (g : KnowledgeGraph) (n : String)
    (h : n ∈ entityNames g) :
    ∃ e, g.entities.find? (fun e => e.name == n) = some e := by
  rw [← Option.isSome_iff_exists, List.find?_isSome]
  rcases List.mem_map.1 h with ⟨e, he, hname⟩
  exact ⟨e, he, by simp [hname]⟩

theorem entityNames_addObservationsGo (os : List ObservationAdd) :
    ∀ {g g' : KnowledgeGraph} {rs : List ObservationResult},
      addObservationsGo g os = .ok (g', rs) → entityNames g' = entityNames g := by
  induction os with
  | nil =>
    intro g g' rs h
    rw [addObservationsGo] at h
    cases h
    rfl
  | cons o t ih =>
    intro g g' rs h
    rw [addObservationsGo] at h
    cases hfind : g.entities.find? (fun e => e.name == o.entityName) with
    | none => rw [hfind] at h; cases h
    | some e =>
      rw [hfind] at h
      simp only [] at h
      cases hrec : addObservationsGo
          { g with entities :=
              (updateFirstEntity (fun e2 => e2.name == o.entityName)
                (fun e2 => { e2 with observations :=
                  e2.observations ++ o.contents.filter (fun c => !(e.observations.contains c)) })
                g.entities) } t with
      | error msg => rw [hrec] at h; cases h
      | ok p =>
        rw [hrec] at h
        cases h
        have hnames := ih hrec
        rw [hnames]
        have hupd := updateFirstEntity_map_name (fun e2 => e2.name == o.entityName)
          (fun e2 => { e2 with observations :=
            e2.observations ++ o.contents.filter (fun c => !(e.observations.contains c)) })
          (fun _ => rfl) g.entities
        simpa [entityNames] using hupd

theorem entityNames_deleteObservations (ds : List ObservationDelete)
    (g : KnowledgeGraph) :
    entityNames (deleteObservations ds g) = entityNames g := by
  induction ds generalizing g with
  | nil => rfl
  | cons d t ih =>
    rw [deleteObservations, List.foldl_cons]
    rw [show List.foldl _ _ t = deleteObservations t _ from rfl, ih]
    have hupd := updateFirstEntity_map_name (fun e => e.name == d.entityName)
      (fun e => { e with observations :=
        e.observations.filter (fun o => !(d.observations.contains o)) })
      (fun _ => rfl) g.entities
    simpa [entityNames] using hupd

/- ### Claim C5 -/

theorem addObservationsGo_missing (os : List ObservationAdd) :
    ∀ (g : KnowledgeGraph) (o : ObservationAdd),
      os.find? (fun o2 => !((entityNames g).contains o2.entityName)) = some o →
      addObservationsGo g os = .error (missingEntityMsg o.entityName) := by
  induction os with
  | nil => intro g o hfind; simp at hfind
  | cons r t ih =>
    intro g o hfind
    rw [List.find?_cons] at hfind
    by_cases hmem : r.entityName ∈ entityNames g
    · have hpred : (!((entityNames g).contains r.entityName)) = false := by simpa using hmem
      rw [hpred] at hfind
      simp only [] at hfind
      rcases find_name_isSome g r.entityName hmem with ⟨e, hsome⟩
      rw [addObservationsGo, hsome]
      simp only []
      have hnames : entityNames
          { g with entities :=
              (updateFirstEntity (fun e2 => e2.name == r.entityName)
                (fun e2 => { e2 with observations :=
                  e2.observations ++ r.contents.filter (fun c => !(e.observations.contains c)) })
                g.entities) } = entityNames g := by
        have hupd := updateFirstEntity_map_name (fun e2 => e2.name == r.entityName)
          (fun e2 => { e2 with observations :=
            e2.observations ++ r.contents.filter (fun c => !(e.observations.contains c)) })
          (fun _ => rfl) g.entities
        simpa [entityNames] using hupd
      have hrec := ih _ o (by rw [hnames]; exact hfind)
      rw [hrec]
    · have hpred : (!((entityNames g).contains r.entityName)) = true := by simpa using hmem
      rw [hpred] at hfind
      simp only [Option.some.injEq] at hfind
      subst hfind
      rw [addObservationsGo, (find_name_none g r.entityName).2 hmem]

/-- Claim C5 — `addObservations` atomicity on error: when some request names
an entity absent from the stored graph, the call returns the thrown error
naming the first such missing entity, and the stored file is returned
unchanged (the throw happens inside the `map`, before any write), so no
observation of the request is visible to a subsequent load. -/
theorem addObservations_atomic (f : StoredFile) (reqs : List ObservationAdd)
    (o : ObservationAdd)
    (hfind : reqs.find?
      (fun o2 => !((entityNames (loadGraph f)).contains o2.entityName)) = some o) :
    runAddObservations f reqs = (.error (missingEntityMsg o.entityName), f) := by
  rw [runAddObservations, addObservations, addObservationsGo_missing reqs (loadGraph f) o hfind]

/-- Witness for claim C5 at a concrete input: a request for an entity
missing from an empty store errors and leaves the store empty. -/
theorem addObservations_atomic_witness :
    runAddObservations [] [⟨"ghost", ["x"]⟩] =
      (.error (missingEntityMsg "ghost"), []) :=
  addObservations_atomic [] [⟨"ghost", ["x"]⟩] ⟨"ghost", ["x"]⟩ (by decide)

/- ### Claim C1 -/

theorem createEntities_snd (es : List Entity) (g : KnowledgeGraph) :
    (createEntities es g).2 =
      es.filter (fun e => !(g.entities.any (fun ex => ex.name == e.name))) := rfl

theorem entityNames_createEntities (es : List Entity) (g : KnowledgeGraph) :
    entityNames (createEntities es g).1 =
      entityNames g ++ (createEntities es g).2.map (·.name) := by
  rw [createEntities]
  simp [entityNames]

theorem NamesNodup_createEntities (es : List Entity) (g : KnowledgeGraph)
    (hg : NamesNodup g) (hes : (es.map (·.name)).Nodup) :
    NamesNodup (createEntities es g).1 := by
  have hgoal : (entityNames (createEntities es g).1).Nodup := by
    rw [entityNames_createEntities]
    refine List.Nodup.append hg ?_ ?_
    · have hsub : (createEntities es g).2.Sublist es := by
        rw [createEntities_snd]; exact List.filter_sublist es
      exact hes.sublist (hsub.map _)
    · intro a ha hb
      rcases List.mem_map.1 hb with ⟨e, he, hname⟩
      rw [createEntities_snd] at he
      have hcond := (List.mem_filter.1 he).2
      simp only [Bool.not_eq_true', List.any_eq_false, beq_iff_eq] at hcond
      rcases List.mem_map.1 ha with ⟨ex, hex, hexname⟩
      exact hcond ex hex (by rw [hexname, hname])
  exact hgoal

theorem NamesNodup_of_entityNames_eq {g g' : KnowledgeGraph}
    (h : entityNames g' = entityNames g) (hg : NamesNodup g) : NamesNodup g' := by
  have : (entityNames g').Nodup := by rw [h]; exact hg
  exact this

theorem NamesNodup_batchCreate (b : BatchData) (g g' : KnowledgeGraph)
    (res : BatchResult) (hg : NamesNodup g) (hb : (b.entities.map (·.name)).Nodup)
    (h : batchCreate b g = .ok (g', res)) : NamesNodup g' := by
  rw [batchCreate] at h
  have h1 : NamesNodup
      (if b.entities.length > 0 then createEntities b.entities g else (g, [])).1 := by
    split
    · exact NamesNodup_createEntities b.entities g hg hb
    · exact hg
  have h2 : NamesNodup
      (if b.relations.length > 0 then
        createRelations b.relations
          (if b.entities.length > 0 then createEntities b.entities g else (g, [])).1
      else
        ((if b.entities.length > 0 then createEntities b.entities g else (g, [])).1,
          [])).1 := by
    split
    · exact NamesNodup_of_entityNames_eq rfl h1
    · exact h1
  by_cases hobs : b.observations.length > 0
  · rw [if_pos hobs] at h
    cases hgo : addObservationsGo
        (if b.relations.length > 0 then
          createRelations b.relations
            (if b.entities.length > 0 then createEntities b.entities g else (g, [])).1
        else
          ((if b.entities.length > 0 then createEntities b.entities g else (g, [])).1,
            [])).1 b.observations with
    | error msg => rw [hgo] at h; cases h
    | ok p =>
      rw [hgo] at h
      simp only [Except.ok.injEq, Prod.mk.injEq] at h
      rcases h with ⟨hgeq, -⟩
      subst hgeq
      have hcast : addObservationsGo _ b.observations = .ok (p.1, p.2) := hgo
      exact NamesNodup_of_entityNames_eq (entityNames_addObservationsGo _ hcast) h2
  · rw [if_neg hobs] at h
    simp only [Except.ok.injEq, Prod.mk.injEq] at h
    rcases h with ⟨hgeq, -⟩
    subst hgeq
    exact h2

/-- Claim C1 (amended) — entity-name uniqueness is an invariant *provided no
single `createEntities` or `batchCreate` request carries two entities with
the same name*: starting from a stored graph with pairwise-distinct entity
names, every successful mutation whose requested entity names are themselves
pairwise distinct yields a graph with pairwise-distinct entity names.  (The
unamended claim fails: the creation filter only checks the pre-existing
graph, so two same-named new entities inside one request are both
inserted — see the counterexample.) -/
theorem uniqueness_invariant (m : Mutation) (g g' : KnowledgeGraph)
    (hg : NamesNodup g) (hreq : (requestEntityNames m).Nodup)
    (hm : mutate m g = some g') : NamesNodup g' := by
  cases m with
  | createE es =>
    simp only [mutate, Option.some.injEq] at hm
    subst hm
    exact NamesNodup_createEntities es g hg hreq
  | createR rs =>
    simp only [mutate, Option.some.injEq] at hm
    subst hm
    exact NamesNodup_of_entityNames_eq rfl hg
  | addObs os =>
    simp only [mutate] at hm
    cases hgo : addObservations os g with
    | error msg => rw [hgo] at hm; cases hm
    | ok p =>
      rw [hgo] at hm
      simp only [Option.some.injEq] at hm
      subst hm
      have hcast : addObservationsGo g os = .ok (p.1, p.2) := hgo
      exact NamesNodup_of_entityNames_eq (entityNames_addObservationsGo _ hcast) hg
  | delE ns =>
    simp only [mutate, Option.some.injEq] at hm
    subst hm
    have : (entityNames (deleteEntities ns g)).Nodup := by
      rw [deleteEntities]
      have hsub : (g.entities.filter (fun e => !(ns.contains e.name))).Sublist g.entities :=
        List.filter_sublist _
      exact (List.Nodup.sublist (hsub.map _) hg)
    exact this
  | delObs ds =>
    simp only [mutate, Option.some.injEq] at hm
    subst hm
    exact NamesNodup_of_entityNames_eq (entityNames_deleteObservations ds g) hg
  | delR rs =>
    simp only [mutate, Option.some.injEq] at hm
    subst hm
    exact NamesNodup_of_entityNames_eq rfl hg
  | batch b =>
    simp only [mutate] at hm
    cases hbc : batchCreate b g with
    | error msg => rw [hbc] at hm; cases hm
    | ok p =>
      rw [hbc] at hm
      simp only [Option.some.injEq] at hm
      subst hm
      exact NamesNodup_batchCreate b g p.1 p.2 hg hreq hbc

/-- Witness for the amended claim C1 at a concrete input. -/
theorem uniqueness_invariant_witness :
    NamesNodup ⟨[⟨"a", "t", []⟩], []⟩ :=
  uniqueness_invariant (.createE [⟨"a", "t", []⟩]) ⟨[], []⟩ ⟨[⟨"a", "t", []⟩], []⟩
    (by decide) (by decide) (by decide)

/-- Counterexample to claim C1 as stated: a single `createEntities` request
carrying two new entities with the same name is a successful mutation from a
uniquely-named (empty) graph, yet both copies are inserted, so the resulting
stored graph violates name uniqueness. -/
theorem uniqueness_invariant_counterexample :
    NamesNodup ⟨[], []⟩ ∧
      mutate (.createE [⟨"a", "t", []⟩, ⟨"a", "t", []⟩]) ⟨[], []⟩ =
        some ⟨[⟨"a", "t", []⟩, ⟨"a", "t", []⟩], []⟩ ∧
      ¬ NamesNodup ⟨[⟨"a", "t", []⟩, ⟨"a", "t", []⟩], []⟩ :=
  ⟨by decide, by decide, by decide⟩

/- ### Support lemmas: object-level load/save -/

theorem foldl_loadObjStep (ls : List JObj) (acc : List JObj × List JObj) :
    ls.foldl loadObjStep acc =
      (acc.1 ++ ls.filter (fun o => decide (hasTypeTag "entity" o)),
       acc.2 ++ ls.filter (fun o => decide (hasTypeTag "relation" o))) := by
  induction ls generalizing acc with
  | nil => simp
  | cons o t ih =>
    rw [List.foldl_cons, ih, loadObjStep]
    by_cases he : hasTypeTag "entity" o <;> by_cases hr : hasTypeTag "relation" o <;>
      simp [he, hr]

theorem loadObjs_eq (ls : List JObj) :
    loadObjs ls =
      (ls.filter (fun o => decide (hasTypeTag "entity" o)),
       ls.filter (fun o => decide (hasTypeTag "relation" o))) := by
  rw [loadObjs, foldl_loadObjStep]
  simp

theorem lookup_type_entityToObj (e : Entity) :
    List.lookup "type" (entityToObj e) = some (.s "entity") := rfl

theorem lookup_type_relationToObj (r : Relation) :
    List.lookup "type" (relationToObj r) = some (.s "relation") := rfl

theorem tagObj_entityToObj (e : Entity) :
    tagObj "entity" (entityToObj e) = entityToObj e := by
  rw [tagObj, lookup_type_entityToObj]
  rfl

theorem tagObj_relationToObj (r : Relation) :
    tagObj "relation" (relationToObj r) = relationToObj r := by
  rw [tagObj, lookup_type_relationToObj]
  rfl

theorem loadObjs_saveGraphObjs (g : KnowledgeGraph) :
    loadObjs (saveGraphObjs g) =
      (g.entities.map entityToObj, g.relations.map relationToObj) := by
  rw [loadObjs_eq, saveGraphObjs, List.filter_append, List.filter_append]
  have hA : (g.entities.map entityToObj).filter
      (fun o => decide (hasTypeTag "entity" o)) = g.entities.map entityToObj := by
    rw [List.filter_eq_self]
    intro o ho
    rcases List.mem_map.1 ho with ⟨e, -, rfl⟩
    exact decide_eq_true (show hasTypeTag "entity" (entityToObj e) from lookup_type_entityToObj e)
  have hB : (g.relations.map relationToObj).filter
      (fun o => decide (hasTypeTag "entity" o)) = [] := by
    rw [List.filter_eq_nil_iff]
    intro o ho
    rcases List.mem_map.1 ho with ⟨r, -, rfl⟩
    simp only [decide_eq_true_eq]
    rw [hasTypeTag, lookup_type_relationToObj]
    simp
  have hC : (g.entities.map entityToObj).filter
      (fun o => decide (hasTypeTag "relation" o)) = [] := by
    rw [List.filter_eq_nil_iff]
    intro o ho
    rcases List.mem_map.1 ho with ⟨e, -, rfl⟩
    simp only [decide_eq_true_eq]
    rw [hasTypeTag, lookup_type_entityToObj]
    simp
  have hD : (g.relations.map relationToObj).filter
      (fun o => decide (hasTypeTag "relation" o)) = g.relations.map relationToObj := by
    rw [List.filter_eq_self]
    intro o ho
    rcases List.mem_map.1 ho with ⟨r, -, rfl⟩
    exact decide_eq_true
      (show hasTypeTag "relation" (relationToObj r) from lookup_type_relationToObj r)
  rw [hA, hB, hC, hD, List.append_nil, List.nil_append]

/- ### Claim C4 -/

/-- Claim C4 — round trip: for a graph with unique entity names, writing it
(`save(G)`), loading the written lines back, and saving the loaded records
again produces a backing file whose record content equals that of `save(G)`:
the same entity records before the same relation records, insertion order
preserved within each group (re-tagging a loaded record with the spread
`{ type: tag, ...record }` reproduces it field for field). -/
theorem save_load_save_roundtrip (g : KnowledgeGraph) (_h : NamesNodup g) :
    saveObjs (loadObjs (saveGraphObjs g)).1 (loadObjs (saveGraphObjs g)).2 =
      saveGraphObjs g := by
  rw [loadObjs_saveGraphObjs]
  rw [saveObjs, saveGraphObjs, List.map_map, List.map_map]
  have h1 : g.entities.map (tagObj "entity" ∘ entityToObj) = g.entities.map entityToObj :=
    List.map_congr_left (fun e _ => tagObj_entityToObj e)
  have h2 : g.relations.map (tagObj "relation" ∘ relationToObj) =
      g.relations.map relationToObj :=
    List.map_congr_left (fun r _ => tagObj_relationToObj r)
  rw [h1, h2]

/-- Witness for claim C4 at a concrete input. -/
theorem save_load_save_roundtrip_witness :
    saveObjs (loadObjs (saveGraphObjs ⟨[⟨"a", "t", ["o1"]⟩], [⟨"a", "b", "knows"⟩]⟩)).1
        (loadObjs (saveGraphObjs ⟨[⟨"a", "t", ["o1"]⟩], [⟨"a", "b", "knows"⟩]⟩)).2 =
      saveGraphObjs ⟨[⟨"a", "t", ["o1"]⟩], [⟨"a", "b", "knows"⟩]⟩ :=
  save_load_save_roundtrip ⟨[⟨"a", "t", ["o1"]⟩], [⟨"a", "b", "knows"⟩]⟩ (by decide)

/- ### Claim C10 -/

/-- Claim C10 — shape leak: every entity record the object-level load (and
hence `readGraph`) returns carries the on-disk discriminator `type =
"entity"`, and every relation record carries `type = "relation"`, because
the load pushes each parsed line unchanged; in particular a file written for
a typed graph loads back to the full tagged records, discriminator alongside
the documented fields. -/
theorem readGraph_keeps_discriminator (ls : List JObj) (g : KnowledgeGraph) :
    (∀ o ∈ (loadObjs ls).1, hasTypeTag "entity" o) ∧
      (∀ o ∈ (loadObjs ls).2, hasTypeTag "relation" o) ∧
      (loadObjs (saveGraphObjs g)).1 = g.entities.map entityToObj ∧
      (loadObjs (saveGraphObjs g)).2 = g.relations.map relationToObj := by
  refine ⟨?_, ?_, ?_, ?_⟩
  · intro o ho
    rw [loadObjs_eq] at ho
    exact of_decide_eq_true (List.mem_filter.1 ho).2
  · intro o ho
    rw [loadObjs_eq] at ho
    exact of_decide_eq_true (List.mem_filter.1 ho).2
  · rw [loadObjs_saveGraphObjs]
  · rw [loadObjs_saveGraphObjs]

/-- Witness for claim C10 at a concrete input. -/
theorem readGraph_keeps_discriminator_witness :
    (loadObjs [entityToObj ⟨"a", "t", []⟩]).1 = [entityToObj ⟨"a", "t", []⟩] ∧
      hasTypeTag "entity" (entityToObj ⟨"a", "t", []⟩) :=
  ⟨by decide,
   (readGraph_keeps_discriminator [entityToObj ⟨"a", "t", []⟩] ⟨[], []⟩).1
     (entityToObj ⟨"a", "t", []⟩) (by decide)⟩

/- ### Support lemmas: id encoding and parsing -/

theorem digitChar_isDigit (n : ℕ) (h : n < 10) : (digitChar n).isDigit = true := by
  interval_cases n <;> decide

theorem digitChar_val (n : ℕ) (h : n < 10) : (digitChar n).toNat - 48 = n := by
  interval_cases n <;> decide

theorem digitsVal_append_singleton (A : List Char) (c : Char) :
    digitsVal (A ++ [c]) = digitsVal A * 10 + (c.toNat - 48) := by
  rw [digitsVal, digitsVal, List.foldl_append]
  rfl

theorem natToCharsAux_spec :
    ∀ (fuel n : ℕ), n < fuel →
      natToCharsAux fuel n ≠ [] ∧ (∀ c ∈ natToCharsAux fuel n, c.isDigit = true) ∧
        digitsVal (natToCharsAux fuel n) = n := by
  intro fuel
  induction fuel with
  | zero => intro n hn; omega
  | succ f ih =>
    intro n hn
    rw [natToCharsAux]
    by_cases h10 : n < 10
    · rw [if_pos h10]
      refine ⟨by simp, ?_, ?_⟩
      · intro c hc
        rw [List.mem_singleton] at hc
        subst hc
        exact digitChar_isDigit n h10
      · rw [show digitsVal [digitChar n] = digitsVal ([] ++ [digitChar n]) from rfl,
          digitsVal_append_singleton]
        have := digitChar_val n h10
        simp [digitsVal]
        omega
    · rw [if_neg h10]
      have hdiv : n / 10 < f := by omega
      rcases ih (n / 10) hdiv with ⟨hne, hdig, hval⟩
      refine ⟨by simp, ?_, ?_⟩
      · intro c hc
        rcases List.mem_append.1 hc with hc | hc
        · exact hdig c hc
        · rw [List.mem_singleton] at hc
          subst hc
          exact digitChar_isDigit (n % 10) (Nat.mod_lt n (by omega))
      · rw [digitsVal_append_singleton, hval, digitChar_val (n % 10) (Nat.mod_lt n (by omega))]
        omega

theorem natToChars_ne_nil (n : ℕ) : natToChars n ≠ [] :=
  (natToCharsAux_spec (n + 1) n (Nat.lt_succ_self n)).1

theorem natToChars_all_digits (n : ℕ) :
    ∀ c ∈ natToChars n, c.isDigit = true :=
  (natToCharsAux_spec (n + 1) n (Nat.lt_succ_self n)).2.1

theorem digitsVal_natToChars (n : ℕ) : digitsVal (natToChars n) = n :=
  (natToCharsAux_spec (n + 1) n (Nat.lt_succ_self n)).2.2

theorem digit_ne_dash (c : Char) (h : c.isDigit = true) : c ≠ '-' := by
  intro heq
  subst heq
  exact absurd h (by decide)

theorem takeWhile_append_of_all {p : Char → Bool} (A : List Char) (x : Char)
    (B : List Char) (hA : ∀ c ∈ A, p c = true) (hx : p x = false) :
    (A ++ x :: B).takeWhile p = A := by
  induction A with
  | nil => simp [List.takeWhile_cons, hx]
  | cons a t ih =>
    rw [List.cons_append, List.takeWhile_cons, hA a (List.mem_cons_self _ _)]
    rw [if_pos rfl, ih (fun c hc => hA c (List.mem_cons_of_mem a hc))]

theorem takeWhile_eq_self_of_all {p : Char → Bool} (A : List Char)
    (hA : ∀ c ∈ A, p c = true) : A.takeWhile p = A := by
  induction A with
  | nil => rfl
  | cons a t ih =>
    rw [List.takeWhile_cons, hA a (List.mem_cons_self _ _)]
    rw [if_pos rfl, ih (fun c hc => hA c (List.mem_cons_of_mem a hc))]

theorem parse_obsId (i j : ℕ) : parseEntityIndexOfId (obsId i j) = some i := by
  rw [parseEntityIndexOfId, obsId]
  rw [show (String.mk (natToChars i ++ '-' :: natToChars j)).data =
      natToChars i ++ '-' :: natToChars j from rfl]
  rw [takeWhile_append_of_all (natToChars i) '-' (natToChars j)
    (fun c hc => by
      simpa using digit_ne_dash c (natToChars_all_digits i c hc))
    (by simp)]
  rw [parseIntNat]
  rw [show (String.mk (natToChars i)).data = natToChars i from rfl]
  rw [takeWhile_eq_self_of_all (natToChars i) (natToChars_all_digits i)]
  rw [if_neg (by simpa [List.isEmpty_iff] using natToChars_ne_nil i)]
  rw [digitsVal_natToChars]

/- ### Support lemmas: enumeration and search membership -/

theorem mem_enumFrom_of_mem {α : Type} {a : α} {l : List α} (h : a ∈ l) :
    ∀ n : ℕ, ∃ i, (i, a) ∈ enumFrom n l := by
  induction l with
  | nil => cases h
  | cons b t ih =>
    intro n
    rcases List.mem_cons.1 h with rfl | hmem
    · exact ⟨n, by rw [enumFrom]; exact List.mem_cons_self _ _⟩
    · rcases ih hmem (n + 1) with ⟨i, hi⟩
      exact ⟨i, List.mem_cons_of_mem _ hi⟩

theorem mem_obsIndexEntries {g : KnowledgeGraph} {e : Entity} {o : String}
    {i j : ℕ} (hie : (i, e) ∈ enumFrom 0 g.entities)
    (hjo : (j, o) ∈ enumFrom 0 e.observations) :
    (obsId i j, o) ∈ obsIndexEntries g := by
  rw [obsIndexEntries]
  exact List.mem_flatMap.2 ⟨(i, e), hie, List.mem_map.2 ⟨(j, o), hjo, rfl⟩⟩

/- ### Claim C3 -/

/-- Claim C3 (amended) — search soundness *for queries that are non-empty
after trimming, when at most 100 observation-index entries match*: if an
entity owns an observation containing the query as a substring, the query
does not trim to the empty string, and no more than 100 observation-index
entries match the query (so the `limit: 100` truncation drops nothing),
then `searchNodes` includes the owning entity.  (The unamended claim fails:
a whitespace-only query is a non-empty substring of many observations yet
returns the empty result — see the counterexample; and the 100-entry limit
can drop matches.) -/
theorem searchNodes_sound_amended (g : KnowledgeGraph) (q : String) (e : Entity)
    (o : String) (he : e ∈ g.entities) (ho : o ∈ e.observations)
    (hq : (strTrim q).data ≠ [])
    (hsub : containsSub q.data o.data = true)
    (hbound : ((obsIndexEntries g).filter (fun p => matchesQuery q p.2)).length ≤ 100) :
    e ∈ (searchNodes g q).entities := by
  rw [searchNodes, if_neg (by simpa [List.isEmpty_iff] using hq)]
  rcases mem_enumFrom_of_mem he 0 with ⟨i, hie⟩
  rcases mem_enumFrom_of_mem ho 0 with ⟨j, hjo⟩
  have hobs : (obsId i j, o) ∈ obsIndexEntries g := mem_obsIndexEntries hie hjo
  have hmatch : matchesQuery q o = true := hsub
  have hfiltermem : (obsId i j, o) ∈
      (obsIndexEntries g).filter (fun p => matchesQuery q p.2) :=
    List.mem_filter.2 ⟨hobs, hmatch⟩
  have htake : indexSearch (obsIndexEntries g) q 100 =
      ((obsIndexEntries g).filter (fun p => matchesQuery q p.2)).map (·.1) := by
    rw [indexSearch]
    exact List.take_of_length_le (by simpa using hbound)
  have hid : obsId i j ∈ indexSearch (obsIndexEntries g) q 100 := by
    rw [htake]
    exact List.mem_map.2 ⟨(obsId i j, o), hfiltermem, rfl⟩
  have hidx : i ∈ allMatchedIndexes g q := by
    rw [allMatchedIndexes]
    exact List.mem_append_right _
      (List.mem_filterMap.2 ⟨obsId i j, hid, parse_obsId i j⟩)
  show e ∈ filteredEntities g q
  rw [filteredEntities]
  exact List.mem_map.2 ⟨(i, e), List.mem_filter.2 ⟨hie, by simpa using hidx⟩, rfl⟩

/-- Witness for the amended claim C3 at a concrete input. -/
theorem searchNodes_sound_amended_witness :
    (⟨"Alice", "person", ["likes tea"]⟩ : Entity) ∈
      (searchNodes ⟨[⟨"Alice", "person", ["likes tea"]⟩], []⟩ "tea").entities :=
  searchNodes_sound_amended ⟨[⟨"Alice", "person", ["likes tea"]⟩], []⟩ "tea"
    ⟨"Alice", "person", ["likes tea"]⟩ "likes tea"
    (by decide) (by decide) (by decide) (by decide) (by decide)

/-- Counterexample to claim C3 as stated: the query `" "` is a non-empty
string and a substring of the stored observation `"x y"`, yet `searchNodes`
returns the empty result (the `!query.trim()` guard fires), omitting the
owning entity. -/
theorem searchNodes_sound_counterexample :
    (" " : String) ≠ "" ∧
      containsSub " ".data "x y".data = true ∧
      (⟨"a", "t", ["x y"]⟩ : Entity) ∈
        (⟨[⟨"a", "t", ["x y"]⟩], []⟩ : KnowledgeGraph).entities ∧
      searchNodes ⟨[⟨"a", "t", ["x y"]⟩], []⟩ " " = ⟨[], []⟩ :=
  ⟨by decide, by decide, by decide, by decide⟩

/- ### Claim C9 -/

theorem length_indexSearch_le {α : Type} (entries : List (α × String)) (q : String)
    (lim : ℕ) : (indexSearch entries q lim).length ≤ lim := by
  rw [indexSearch, List.length_take]
  exact min_le_left _ _

theorem enumFrom_map_fst {α : Type} (l : List α) :
    ∀ n : ℕ, (enumFrom n l).map Prod.fst = List.range' n l.length := by
  induction l with
  | nil => intro n; rfl
  | cons a t ih =>
    intro n
    rw [enumFrom, List.map_cons, List.length_cons, List.range'_succ, ih (n + 1)]

theorem length_allMatchedIndexes_le (g : KnowledgeGraph) (q : String) :
    (allMatchedIndexes g q).length ≤ 200 := by
  rw [allMatchedIndexes, List.length_append]
  have h1 := length_indexSearch_le (entityIndexEntries g) q 100
  have h2 := le_trans (List.length_filterMap_le parseEntityIndexOfId _)
    (length_indexSearch_le (obsIndexEntries g) q 100)
  omega

theorem length_filteredEntities_le (g : KnowledgeGraph) (q : String) :
    (filteredEntities g q).length ≤ (allMatchedIndexes g q).length := by
  rw [filteredEntities, List.length_map]
  set kept := (enumFrom 0 g.entities).filter
    (fun p => (allMatchedIndexes g q).contains p.1) with hkept
  have hsub : (kept.map Prod.fst).Sublist ((enumFrom 0 g.entities).map Prod.fst) :=
    (List.filter_sublist _).map Prod.fst
  have hnd : (kept.map Prod.fst).Nodup := by
    refine List.Nodup.sublist hsub ?_
    rw [enumFrom_map_fst]
    exact List.nodup_range' _ _
  have hsubset : ∀ x ∈ kept.map Prod.fst, x ∈ allMatchedIndexes g q := by
    intro x hx
    rcases List.mem_map.1 hx with ⟨p, hp, rfl⟩
    have := (List.mem_filter.1 hp).2
    simpa using this
  calc kept.length = (kept.map Prod.fst).length := (List.length_map _ _).symm
    _ = (kept.map Prod.fst).toFinset.card := (List.toFinset_card_of_nodup hnd).symm
    _ ≤ (allMatchedIndexes g q).toFinset.card := by
        refine Finset.card_le_card ?_
        intro x hx
        exact List.mem_toFinset.2 (hsubset x (List.mem_toFinset.1 hx))
    _ ≤ (allMatchedIndexes g q).length := List.toFinset_card_le _

/-- Claim C9 (amended) — result bound: `searchNodes` takes at most 100 hits
from the entity-identity index and at most 100 from the observation index,
so its result holds at most 200 entities; consequently, when *more than 200*
entities match the query, the result has fewer entities than there are
matches, i.e. some matching entities are omitted.  (The unamended ">100
matching implies omission" fails: the two 100-hit budgets are independent,
so up to 200 matching entities can all be returned — see the
counterexample.) -/
theorem searchNodes_result_bound (g : KnowledgeGraph) (q : String) :
    (indexSearch (entityIndexEntries g) q 100).length ≤ 100 ∧
      (indexSearch (obsIndexEntries g) q 100).length ≤ 100 ∧
      (searchNodes g q).entities.length ≤ 200 ∧
      (200 < g.entities.countP (entityMatchesQuery q) →
        (searchNodes g q).entities.length < g.entities.countP (entityMatchesQuery q)) := by
  have hlen : (searchNodes g q).entities.length ≤ 200 := by
    by_cases hq : (strTrim q).data.isEmpty = true
    · rw [searchNodes, if_pos hq]
      simp
    · rw [searchNodes, if_neg hq]
      exact le_trans (length_filteredEntities_le g q) (length_allMatchedIndexes_le g q)
  exact ⟨length_indexSearch_le _ _ _, length_indexSearch_le _ _ _, hlen,
    fun hgt => lt_of_le_of_lt hlen hgt⟩

set_option maxRecDepth 40000 in
/-- Witness for the amended claim C9 at a concrete input with more than 200
matching entities: the result is strictly smaller than the match count. -/
theorem searchNodes_result_bound_witness :
    200 < ((⟨List.replicate 201 ⟨"x", "t", ["q"]⟩, []⟩ :
        KnowledgeGraph).entities.countP (entityMatchesQuery "q")) ∧
      (searchNodes ⟨List.replicate 201 ⟨"x", "t", ["q"]⟩, []⟩ "q").entities.length <
        (⟨List.replicate 201 ⟨"x", "t", ["q"]⟩, []⟩ :
          KnowledgeGraph).entities.countP (entityMatchesQuery "q") :=
  ⟨by decide,
   (searchNodes_result_bound ⟨List.replicate 201 ⟨"x", "t", ["q"]⟩, []⟩ "q").2.2.2
     (by decide)⟩

set_option maxRecDepth 40000 in
/-- Counterexample to claim C9 as stated: a graph where 101 entities match
the query (one through the entity-identity index, 100 through the
observation index) yet the result returns the whole entity list — more than
100 entities match and none is omitted. -/
theorem searchNodes_result_bound_counterexample :
    100 < ((⟨⟨"q", "t", []⟩ :: List.replicate 100 ⟨"x", "t", ["q"]⟩, []⟩ :
        KnowledgeGraph).entities.countP (entityMatchesQuery "q")) ∧
      (searchNodes ⟨⟨"q", "t", []⟩ :: List.replicate 100 ⟨"x", "t", ["q"]⟩, []⟩
          "q").entities =
        (⟨"q", "t", []⟩ :: List.replicate 100 ⟨"x", "t", ["q"]⟩ : List Entity) :=
  ⟨by decide, by decide⟩

/- ### Support lemmas: similarity engine -/

end Memory
